import Mathlib

/-!
Verification of the skillport skill-catalog synchronization engine.

This file gives a shallow embedding, in Lean, of the engine's core
operations as implemented in the repository:

* `parse_github_url` from `skillport/modules/skills/internal/github.py`
* `extract_tarball` / `fetch_github_source` from the same module
* `add_local` from `skillhub_mcp/skill_manager/add.py`
* the origin-recording tail of `add_skill` and `remove_skill` from
  `skillport/modules/skills/public/{add,remove}.py`
* `_update_from_local` / `_update_from_github` from
  `skillport/modules/skills/public/update.py`
* `_hash_skills_dir` from `skillhub_mcp/db/state.py` (identical code in
  `skillhub_mcp/db/search.py`)

Python strings are embedded as `List Char`; the filesystem, the network
and cryptographic digests are modelled as explicit values, oracles and
success flags threaded through the definitions.  Theorems about the
embedded definitions follow after all definitions.
-/

deriving instance DecidableEq for Except

/-- Embedded Python strings: a list of characters. -/
abbrev Str := List Char

/-- Splits a character list on a separator character.  Mirrors Python's
`str.split(sep)`: `splitSep '/' "".data = [[]]`, and empty groups between
consecutive separators are kept. -/
def splitSep (sep : Char) : Str → List Str
  | [] => [[]]
  | c :: cs =>
    if c = sep then [] :: splitSep sep cs
    else
      match splitSep sep cs with
      | [] => [[c]]
      | g :: gs => (c :: g) :: gs

/-- Whitespace test used by `trimChars`; mirrors the characters stripped by
Python's `str.strip()` for the ASCII range that occurs in the sources. -/
def isSpaceChar (c : Char) : Bool :=
  c = ' ' || c = '\t' || c = '\n' || c = '\r'

/-- Mirrors Python's `str.strip()`: removes leading and trailing whitespace. -/
def trimChars (s : Str) : Str :=
  ((s.dropWhile isSpaceChar).reverse.dropWhile isSpaceChar).reverse

/-- `leadsWith pat s` is true when `s` starts with `pat`; mirrors Python's
`str.startswith`. -/
def leadsWith : Str → Str → Bool
  | [], _ => true
  | _ :: _, [] => false
  | p :: ps, c :: cs => p = c && leadsWith ps cs

/-- Mirrors Python's `str.lstrip("/")`: drops leading slashes. -/
def lstripSlash (s : Str) : Str := s.dropWhile (fun c => c = '/')

/-- Mirrors Python's `str.rstrip("/")`: drops trailing slashes. -/
def rstripSlash (s : Str) : Str := (s.reverse.dropWhile (fun c => c = '/')).reverse

/-- Byte-code-point comparison of characters, as Python compares strings. -/
def charLe (a b : Char) : Bool := a.toNat ≤ b.toNat

/-- Lexicographic order on embedded strings by code point, as Python's
`list.sort()` orders strings. -/
def strLe : Str → Str → Bool
  | [], _ => true
  | _ :: _, [] => false
  | a :: as, b :: bs => if a = b then strLe as bs else charLe a b

/-- Insertion step of the sort used to model Python's `list.sort()`. -/
def insertLe (x : Str) : List Str → List Str
  | [] => [x]
  | y :: ys => if strLe x y then x :: y :: ys else y :: insertLe x ys

/-- Insertion sort modelling Python's `entries.sort()` (stable, by `strLe`). -/
def sortStr : List Str → List Str
  | [] => []
  | x :: xs => insertLe x (sortStr xs)

/-- Decimal rendering of a natural number, used to embed Python's
f-string interpolation of integers. -/
def natStr (n : Nat) : Str := (Nat.repr n).data

-- ---------------------------------------------------------------------------
-- GitHub URL parsing (skillport/modules/skills/internal/github.py)
-- ---------------------------------------------------------------------------

/-- Result of `parse_github_url` (the `ParsedGitHubURL` dataclass in
`github.py`). -/
structure ParsedGitHubURL where
  owner : Str
  repo : Str
  ref : Str
  path : Str
deriving DecidableEq

/-- The literal prefix required by `GITHUB_URL_RE`. -/
def githubUrlPref : Str := "https://github.com/".data

/-- Embeds matching of `GITHUB_URL_RE` from `github.py`:

`^https://github\.com/(?P<owner>[^/]+)/(?P<repo>[^/]+)(?:/tree/(?P<ref>[^/]+)(?P<path>/.*)?)?/?$`

Returns `(owner, repo, ref?, path)` where `path` is `""` when the path
group did not participate in the match (the code then uses `""`).
The regex is anchored; `owner`, `repo` and `ref` are nonempty runs of
non-slash characters, so the segment-list characterization below is exact
(the optional trailing `/` is absorbed by the greedy `path` group whenever
that group matches, and otherwise shows up as a final empty segment). -/
def matchGithubURL (url : Str) : Option (Str × Str × Option Str × Str) :=
  let s := trimChars url
  if leadsWith githubUrlPref s then
    match splitSep '/' (s.drop githubUrlPref.length) with
    | [o, r] =>
      if o ≠ [] ∧ r ≠ [] then some (o, r, none, []) else none
    | [o, r, []] =>
      if o ≠ [] ∧ r ≠ [] then some (o, r, none, []) else none
    | o :: r :: t :: rf :: rest =>
      if t = "tree".data ∧ o ≠ [] ∧ r ≠ [] ∧ rf ≠ [] then
        some (o, r, some rf,
          if rest.isEmpty then [] else '/' :: List.intercalate ['/'] rest)
      else none
    | _ => none
  else none

/-- Embeds `parse_github_url` from `github.py`.  `resolveDefaultBranch`
mirrors the keyword argument; `defaultBranch` is the branch name the
GitHub metadata lookup `_get_default_branch` would return (that helper
already falls back to `"main"` internally on any network failure).  The
second component of the result records whether the metadata lookup — the
only network call reachable from this function — was performed. -/
def parse_github_url (url : Str) (resolveDefaultBranch : Bool)
    (defaultBranch : Str) : Except Str ParsedGitHubURL × Bool :=
  match matchGithubURL url with
  | none =>
    (Except.error "Unsupported GitHub URL. Use https://github.com/<owner>/<repo>[/tree/<ref>/<path>]".data,
     false)
  | some (o, r, rf, p) =>
    if "..".data ∈ splitSep '/' p then
      (Except.error "Path traversal detected in URL".data, false)
    else
      match rf with
      | some ref => (Except.ok ⟨o, r, ref, p⟩, false)
      | none =>
        if resolveDefaultBranch then (Except.ok ⟨o, r, defaultBranch, p⟩, true)
        else (Except.ok ⟨o, r, "main".data, p⟩, false)

-- ---------------------------------------------------------------------------
-- Tarball extraction (skillport/modules/skills/internal/github.py)
-- ---------------------------------------------------------------------------

/-- Type of a tar archive member, as distinguished by `tarfile.TarInfo`'s
`isdir` / `islnk` / `issym` predicates in `extract_tarball`. -/
inductive TarMemberType where
  | file
  | dir
  | symlink
  | hardlink
deriving DecidableEq

/-- A tar archive member as observed by `extract_tarball`.  `extractOk`
models `tar.extractfile(member)` returning a stream rather than `None`;
`dataLen` is the number of bytes `extracted.read()` yields. -/
structure TarMember where
  name : Str
  typ : TarMemberType
  size : Nat
  extractOk : Bool
  dataLen : Nat
deriving DecidableEq

/-- `MAX_FILE_BYTES` from `github.py`. -/
def MAX_FILE_BYTES : Nat := 5000000

/-- `MAX_EXTRACTED_BYTES` from `github.py`. -/
def MAX_EXTRACTED_BYTES : Nat := 10000000

/-- `EXCLUDE_NAMES` from `github.py`. -/
def EXCLUDE_NAMES : List Str :=
  [".git".data, ".env".data, "__pycache__".data,
   ".DS_Store".data, ".Spotlight-V100".data, ".Trashes".data,
   "Thumbs.db".data, "desktop.ini".data]

/-- Embeds `Path(member.name).parts` for the relative names produced by
prefix stripping: `pathlib` drops empty and `"."` components. -/
def pathParts (s : Str) : List Str :=
  (splitSep '/' s).filter (fun p => !p.isEmpty && p ≠ ['.'])

/-- The skip test of `extract_tarball`:
`p in EXCLUDE_NAMES or p.startswith(".")` for one path component. -/
def isHiddenOrExcluded (p : Str) : Bool :=
  p ∈ EXCLUDE_NAMES ||
    (match p with
     | c :: _ => c = '.'
     | [] => false)

/-- True for `member.islnk() or member.issym()`. -/
def isLinkMember (m : TarMember) : Bool :=
  m.typ = TarMemberType.symlink || m.typ = TarMemberType.hardlink

/-- State threaded through the member loop of `extract_tarball`:
`total_bytes` and the member paths written below `dest_root` (each with
the member type that produced the write: a directory creation or a file
write). -/
structure ExtractState where
  totalBytes : Nat
  written : List (Str × TarMemberType)
deriving DecidableEq

/-- One iteration of the member loop of `extract_tarball` (lines 141-170 of
`github.py`), acting on a member whose name has already been stripped of
the target prefix.  `Except.error` embeds `raise ValueError`. -/
def extractStep (st : ExtractState) (m : TarMember) : Except Str ExtractState :=
  if m.name.isEmpty then Except.ok st
  else if (pathParts m.name).any isHiddenOrExcluded then Except.ok st
  else if isLinkMember m then
    Except.error ("Symlinks are not allowed in GitHub source: ".data ++ m.name)
  else if m.typ = TarMemberType.dir then
    Except.ok { st with written := st.written ++ [(m.name, TarMemberType.dir)] }
  else if m.size > MAX_FILE_BYTES then
    Except.error ("File too large (>1MB): ".data ++ m.name)
  else if !m.extractOk then Except.ok st
  else if st.totalBytes + m.dataLen > MAX_EXTRACTED_BYTES then
    Except.error "Extracted skill exceeds 10MB limit".data
  else
    Except.ok ⟨st.totalBytes + m.dataLen,
               st.written ++ [(m.name, TarMemberType.file)]⟩

/-- The member loop of `extract_tarball`.  On an exception the state
reached so far is returned together with the error message: the files
already written stay on disk. -/
def extractLoop (st : ExtractState) : List TarMember → ExtractState × Option Str
  | [] => (st, none)
  | m :: ms =>
    match extractStep st m with
    | Except.ok st' => extractLoop st' ms
    | Except.error e => (st, some e)

/-- Embeds `_iter_members_for_prefix` from `github.py`: keeps members whose
name starts with `pref` and strips the prefix (then `lstrip("/")`). -/
def membersForPref (pref : Str) (members : List TarMember) : List TarMember :=
  members.filterMap (fun m =>
    if leadsWith pref m.name then
      some { m with name := lstripSlash (m.name.drop pref.length) }
    else none)

/-- `sorted(roots)[0]`: the lexicographically least element. -/
def minStr (x : Str) (xs : List Str) : Str :=
  xs.foldl (fun a b => if strLe a b then a else b) x

/-- The root-directory discovery of `extract_tarball`:
first path component of every member with a nonempty name. -/
def tarballRoots (members : List TarMember) : List Str :=
  (members.filter (fun m => !m.name.isEmpty)).map
    (fun m => (splitSep '/' m.name).headD [])

/-- The target-prefix computation of `extract_tarball` (lines 133-138 of
`github.py`), given the discovered synthetic root directory and
`parsed.normalized_path`. -/
def targetPref (root : Str) (normalizedPath : Str) : Str :=
  if normalizedPath.isEmpty then root ++ ['/']
  else rstripSlash (root ++ '/' :: normalizedPath) ++ ['/']

/-- Outcome of `extract_tarball`: the loop state and optional exception,
plus the lifecycle of the fresh temporary directory `dest_root` created by
`tempfile.mkdtemp` on entry.  The source contains no cleanup of
`dest_root`, so `destRootRemoved` is `false` on every path by
construction; it is recorded explicitly so that the resource claim can be
stated against the embedding. -/
structure ExtractOutcome where
  state : ExtractState
  err : Option Str
  destRootCreated : Bool
  destRootRemoved : Bool
deriving DecidableEq

/-- Embeds `extract_tarball` from `github.py`.  `normalizedPath` is
`parsed.normalized_path`. -/
def extract_tarball (members : List TarMember) (normalizedPath : Str) :
    ExtractOutcome :=
  match tarballRoots members with
  | [] => ⟨⟨0, []⟩, some "Tarball is empty".data, true, false⟩
  | r :: rs =>
    let root := minStr r rs
    let pref := targetPref root normalizedPath
    let run := extractLoop ⟨0, []⟩ (membersForPref pref members)
    ⟨run.1, run.2, true, false⟩

/-- Outcome of `fetch_github_source`: the extraction outcome plus whether
the downloaded tarball file and the temporary extraction directory were
removed by the time the function returns or raises. -/
structure FetchOutcome where
  state : ExtractState
  err : Option Str
  tarFileRemoved : Bool
  tempDirCreated : Bool
  tempDirRemoved : Bool
deriving DecidableEq

/-- Embeds `fetch_github_source` from `github.py` after a successful
download: it calls `extract_tarball` and removes the downloaded tar file
in a `finally` block.  Nothing removes the extraction directory, on
success or on exception. -/
def fetch_github_source (members : List TarMember) (normalizedPath : Str) :
    FetchOutcome :=
  let ex := extract_tarball members normalizedPath
  ⟨ex.state, ex.err, true, ex.destRootCreated, ex.destRootRemoved⟩

/-- Whether the temporary extraction directory has been removed once
`add_skill` (the caller of `fetch_github_source`, lines 66-76 and 315-317
of `add.py`) finishes: on a successful fetch `add_skill` assigns
`temp_dir` and sets `cleanup_temp_dir`, so its `finally` block removes the
directory; when the fetch raises, `temp_dir` was never assigned in
`add_skill` and the directory's fate is whatever `fetch_github_source`
left behind. -/
def tempDirRemovedAfterAddSkill (fo : FetchOutcome) : Bool :=
  match fo.err with
  | none => true
  | some _ => fo.tempDirRemoved

-- ---------------------------------------------------------------------------
-- Local add engine (skillhub_mcp/skill_manager/add.py, add_local)
-- ---------------------------------------------------------------------------

/-- A skill of an add batch, as `add_local` observes it.  `name` is the
detected skill name (`SkillInfo.name`); `validationFatal` models
`_validate_skill_file` raising on this skill; `copyFails` models the body
of the per-skill `try` block (`_copy_skill_dir` and the frontmatter
rewrite) raising partway, for example on an I/O error or a symlink found
inside the source. -/
structure SkillSpecA where
  name : String
  validationFatal : Bool
  copyFails : Bool
deriving DecidableEq

/-- The `AddResult` dataclass as produced per skill by `add_local`. -/
structure AddR where
  success : Bool
  skill_id : String
  message : String
deriving DecidableEq

/-- Removal of a directory from the modelled skills root
(`shutil.rmtree`): afterwards no directory with that id exists. -/
def removeId (id : String) : List String → List String
  | [] => []
  | x :: xs => if x = id then removeId id xs else x :: removeId id xs

/-- The skill-id computation of `add_local` (lines 240-244 of
`skill_manager/add.py`): `rename_single_to` applies only to single-skill
batches and only when truthy (a non-empty string), and `keep_structure`
prefixes the namespace. -/
def mkSkillId (batchLen : Nat) (renameSingleTo : Option String)
    (keepStructure : Bool) (ns : String) (sk : SkillSpecA) : String :=
  let nm :=
    match renameSingleTo with
    | some r => if r ≠ "" ∧ batchLen = 1 then r else sk.name
    | none => sk.name
  if keepStructure then ns ++ "/" ++ nm else nm

/-- The per-skill loop of `add_local` (lines 240-271 of
`skill_manager/add.py`).  `seen` is the `seen_ids` set, `fs` the set of
directories existing under the target root.  The result pairs the final
filesystem with either the accumulated per-skill results or the message
of a raised exception (`Except.error`); an exception discards the
accumulated results but not the filesystem effects already performed. -/
def addLocalGo (force : Bool) (mkId : SkillSpecA → String) :
    List String → List String → List SkillSpecA →
    List String × Except String (List AddR)
  | _, fs, [] => (fs, Except.ok [])
  | seen, fs, sk :: rest =>
    let id := mkId sk
    if id ∈ seen then
      (fs, Except.error ("Duplicate skill id detected: " ++ id))
    else
      let seen' := seen ++ [id]
      if id ∈ fs ∧ ¬force then
        let run := addLocalGo force mkId seen' fs rest
        (run.1, run.2.map (fun rs =>
          ⟨false, id, "Skill '" ++ id ++ "' exists. Use --force to overwrite."⟩ :: rs))
      else
        let fs1 := if id ∈ fs then removeId id fs else fs
        if sk.copyFails then
          let run := addLocalGo force mkId seen' fs1 rest
          (run.1, run.2.map (fun rs =>
            ⟨false, id, "Failed to add '" ++ id ++ "'"⟩ :: rs))
        else
          let run := addLocalGo force mkId seen' (fs1 ++ [id]) rest
          (run.1, run.2.map (fun rs => ⟨true, id, "Added '" ++ id ++ "'"⟩ :: rs))

/-- Embeds `add_local` from `skill_manager/add.py`: first every skill of
the batch is validated (`_validate_skill_file`, a raise aborting the whole
call before any copy), then the per-skill loop runs.  `ns` is
`namespace_override or source_path.name`, already resolved. -/
def add_local (skills : List SkillSpecA) (fs0 : List String) (force : Bool)
    (keepStructure : Bool) (ns : String) (renameSingleTo : Option String) :
    List String × Except String (List AddR) :=
  if skills.any (fun sk => sk.validationFatal) then
    (fs0, Except.error "Invalid SKILL.md")
  else
    addLocalGo force (mkSkillId skills.length renameSingleTo keepStructure ns)
      [] fs0 skills

-- ---------------------------------------------------------------------------
-- Origin store and add/remove reconciliation (skillport)
-- ---------------------------------------------------------------------------

/-- An origin record as stored in `origins.json`
(`skillport/modules/skills/internal/origin.py`); only the fields the
claims touch are carried. -/
structure OriginRec where
  kind : String
  contentHash : String
deriving DecidableEq

/-- `data[skill_id] = enriched` on the loaded origin map: replace the
record when the key exists, append it otherwise. -/
def setOrigin (m : List (String × OriginRec)) (id : String) (r : OriginRec) :
    List (String × OriginRec) :=
  if m.any (fun p => p.1 = id) then
    m.map (fun p => if p.1 = id then (id, r) else p)
  else m ++ [(id, r)]

/-- `del data[skill_id]` on the loaded origin map. -/
def delOrigin (id : String) : List (String × OriginRec) → List (String × OriginRec)
  | [] => []
  | p :: ps => if p.1 = id then delOrigin id ps else p :: delOrigin id ps

/-- The catalog as the pair the invariant speaks about: the set of
installed skill directories and the origin map persisted beside them. -/
structure Catalog where
  fs : List String
  origins : List (String × OriginRec)
deriving DecidableEq

/-- Result shape of `add_skill` restricted to what the invariant claim
needs: overall success flag and the `added` / `skipped` id lists. -/
structure AddResultP where
  success : Bool
  added : List String
  skipped : List String
deriving DecidableEq

/-- The origin-recording loop at the tail of `add_skill`
(`skillport/modules/skills/public/add.py`, lines 261-305): for every added
id, `record_origin` is attempted inside `try: ... except Exception: pass`,
so a failing origin write (modelled by `saveOk = false`) is swallowed and
leaves the origin map untouched while the add still reports success. -/
def recordOriginsForAdded (saveOk : Bool) (payload : OriginRec)
    (addedIds : List String) (origins : List (String × OriginRec)) :
    List (String × OriginRec) :=
  addedIds.foldl (fun m sid => if saveOk then setOrigin m sid payload else m)
    origins

/-- Embeds the non-builtin installation path of `add_skill`
(`skillport/modules/skills/public/add.py`, lines 164-314): run the local
add engine over the detected skills, derive `added` / `skipped` from the
per-skill results, then record an origin for every added id with failures
swallowed.  The internal add engine of skillport is not under `src/`; per
the specification it is the same add/remove engine, so the in-source
`add_local` of `skill_manager/add.py` embedded above is used for it.  An
exception from the engine propagates out of `add_skill` (there is no
`except` around the main body, only a `finally`). -/
def add_skill_core (saveOk : Bool) (payload : OriginRec)
    (skills : List SkillSpecA) (force : Bool) (keepStructure : Bool)
    (ns : String) (renameSingleTo : Option String) (cat : Catalog) :
    Catalog × Except String AddResultP :=
  let run := add_local skills cat.fs force keepStructure ns renameSingleTo
  let fs' := run.1
  match run.2 with
  | Except.error e => (⟨fs', cat.origins⟩, Except.error e)
  | Except.ok results =>
    let added := (results.filter (fun rr => rr.success)).map (fun rr => rr.skill_id)
    let skipped := (results.filter (fun rr => !rr.success)).map (fun rr => rr.skill_id)
    let origins' :=
      if added.isEmpty then cat.origins
      else recordOriginsForAdded saveOk payload added cat.origins
    (⟨fs', origins'⟩, Except.ok ⟨skipped.isEmpty, added, skipped⟩)

/-- Modelled from the spec: the internal `remove_skill` of
`skillport/modules/skills/internal` is not under `src/`.  Following the
specification's ordering rule ("Origin record is removed only after the
directory removal succeeds"), it deletes the installed directory and
reports success, failing when no such directory exists. -/
def remove_skill_internal (fs : List String) (id : String) :
    List String × Bool :=
  if id ∈ fs then (removeId id fs, true) else (fs, false)

/-- Embeds `remove_skill` from `skillport/modules/skills/public/remove.py`:
the internal removal runs first; only on success is the origin record
removed, inside `try: ... except Exception: pass`, so a failing origin
write (`saveOk = false`) is swallowed while the remove still reports
success. -/
def remove_skill (saveOk : Bool) (id : String) (cat : Catalog) :
    Catalog × Bool :=
  let run := remove_skill_internal cat.fs id
  if run.2 then
    (⟨run.1, if saveOk then delOrigin id cat.origins else cat.origins⟩, true)
  else
    (⟨run.1, cat.origins⟩, false)

-- ---------------------------------------------------------------------------
-- Update reconciler (skillport/modules/skills/public/update.py)
-- ---------------------------------------------------------------------------

/-- `UpdateResult` restricted to the fields the claims touch.
`localModified` is the machine-checkable `local_modified` flag. -/
structure UpdateResultP where
  success : Bool
  message : String
  localModified : Bool
  updated : List String
  skipped : List String
deriving DecidableEq

/-- Constructs an `UpdateResult` failure (the default flag values of the
dataclass). -/
def updFail (msg : String) : UpdateResultP := ⟨false, msg, false, [], []⟩

/-- The per-skill state `_update_from_local` / `_update_from_github`
mutate: the installed directory (represented by its content-only hash,
`none` when the directory is absent) and the `content_hash` baseline
stored in the skill's origin record (`""` when absent — `origin.get`
with default).  Side writes of other origin metadata (the `path`
narrowing, `updated_at`, `commit_sha`, history) do not bear on the claims
and are not represented. -/
structure UpdState where
  installed : Option String
  originHash : String
deriving DecidableEq

/-- Environment of one `_update_from_local` run: how the source resolves
and what the two content hashes and their failure reasons are.
`removeOk` / `copyOk` model `shutil.rmtree(dest_path)` and
`shutil.copytree(source_path, dest_path)` inside the final `try` block:
a raise of the former leaves the installed directory in place, a raise of
the latter occurs after the installed directory was removed. -/
structure LocalUpdateEnv where
  sourceExists : Bool
  sourceIsDir : Bool
  skillFound : Bool
  sourceHash : String
  sourceReason : Option String
  installedHash : String
  installedReason : Option String
  removeOk : Bool
  copyOk : Bool
deriving DecidableEq

/-- Embeds `_update_from_local` from `update.py` (lines 295-425).  The
stored baseline `origin.get("content_hash", "")` is `st.originHash`.
After a successful copy the recomputed content-only hash of the
destination equals the source hash, the copy being content-identical. -/
def update_from_local (env : LocalUpdateEnv) (skillId : String)
    (force : Bool) (dryRun : Bool) (st : UpdState) :
    UpdateResultP × UpdState :=
  if ¬env.sourceExists then (updFail "Source path not found", st)
  else if ¬env.sourceIsDir then (updFail "Source is not a directory", st)
  else if ¬env.skillFound then (updFail "Could not find skill in source", st)
  else
    match env.sourceReason with
    | some _ => (updFail "Source not readable", st)
    | none =>
      match env.installedReason with
      | some _ => (updFail "Installed skill unreadable", st)
      | none =>
        if env.sourceHash = env.installedHash then
          (⟨true, "Already up to date", false, [], [skillId]⟩,
           if st.originHash ≠ env.installedHash then
             { st with originHash := env.installedHash }
           else st)
        else if st.originHash ≠ "" ∧ st.originHash ≠ env.installedHash ∧ ¬force then
          (⟨false, "Local modifications detected. Use --force to overwrite",
            true, [], []⟩, st)
        else if dryRun then
          (⟨true, "Would update", false, [skillId], []⟩, st)
        else if ¬env.removeOk then
          (updFail "Failed to update", st)
        else if ¬env.copyOk then
          (updFail "Failed to update", { st with installed := none })
        else
          (⟨true, "Updated from local source", false, [skillId], []⟩,
           ⟨some env.sourceHash, env.sourceHash⟩)

/-- Environment of one `_update_from_github` run: the installed hash, the
lightweight remote tree hash of the check phase, and the apply phase.
`fetchOk` models `fetch_github_source_with_info` succeeding; `removeOk` /
`copyOk` model `shutil.rmtree` / `shutil.copytree` as in the local case;
`fetchedHash` is the content-only hash recomputed from the destination
after the copy (the tarball content, hashed with the content scheme —
not the tree-API digest). -/
structure GithubUpdateEnv where
  sourceUrl : String
  remoteHash : String
  remoteReason : Option String
  installedHash : String
  installedReason : Option String
  fetchOk : Bool
  removeOk : Bool
  copyOk : Bool
  fetchedHash : String
deriving DecidableEq

/-- Embeds `_update_from_github` from `update.py` (lines 428-607): the
check phase compares the remote tree hash with the installed hash,
resyncing the stored baseline on equality; the local-modification gate
and dry-run follow; the apply phase downloads, replaces the installed
directory and rewrites the origin baseline from the new content. -/
def update_from_github (env : GithubUpdateEnv) (skillId : String)
    (force : Bool) (dryRun : Bool) (st : UpdState) :
    UpdateResultP × UpdState :=
  if env.sourceUrl = "" then (updFail "Missing GitHub source URL", st)
  else
    match env.installedReason with
    | some _ => (updFail "Installed skill unreadable", st)
    | none =>
      match env.remoteReason with
      | some _ => (updFail "Cannot check remote", st)
      | none =>
        if env.remoteHash = env.installedHash then
          (⟨true, "Already up to date", false, [], [skillId]⟩,
           if st.originHash ≠ env.installedHash then
             { st with originHash := env.installedHash }
           else st)
        else if st.originHash ≠ "" ∧ st.originHash ≠ env.installedHash ∧ ¬force then
          (⟨false, "Local modifications detected. Use --force to overwrite",
            true, [], []⟩, st)
        else if dryRun then
          (⟨true, "Would update", false, [skillId], []⟩, st)
        else if ¬env.fetchOk then
          (updFail "Failed to fetch from GitHub", st)
        else if ¬env.removeOk then
          (updFail "Failed to fetch from GitHub", st)
        else if ¬env.copyOk then
          (updFail "Failed to fetch from GitHub", { st with installed := none })
        else
          (⟨true, "Updated", false, [skillId], []⟩,
           ⟨some env.fetchedHash, env.fetchedHash⟩)

-- ---------------------------------------------------------------------------
-- Directory-state hash (skillhub_mcp/db/state.py, _hash_skills_dir;
-- the identical function appears in skillhub_mcp/db/search.py)
-- ---------------------------------------------------------------------------

/-- An immediate child of the skills root as `_hash_skills_dir` observes
it.  `skillMdExists` covers both the `exists()` check and the subsequent
`stat()` (which can only raise `FileNotFoundError` when the file vanished
in between; in this race-free sequential model the two observations
agree).  `readable` models `read_bytes()` succeeding; `contentBytes` is
the file content. -/
structure CatalogEntry where
  name : Str
  isDir : Bool
  skillMdExists : Bool
  mtimeNs : Nat
  size : Nat
  readable : Bool
  contentBytes : List Nat
deriving DecidableEq

/-- The line `f"{rel}:{st.st_mtime_ns}:{st.st_size}:{body_digest}"` where
`rel` is the path of the definition file relative to the skills root. -/
def hashLine (rel : Str) (mtimeNs size : Nat) (digest : Str) : Str :=
  rel ++ ':' :: natStr mtimeNs ++ ':' :: natStr size ++ ':' :: digest

/-- Embeds `_hash_skills_dir` from `skillhub_mcp/db/state.py` for an
existing skills root.  `sha1` and `sha256` are oracles for
`hashlib.sha1(..).hexdigest()` over bytes and
`hashlib.sha256(..).hexdigest()` over the UTF-8 encoded joined string.
Returns the tagged hash together with the entry count. -/
def hash_skills_dir (entries : List CatalogEntry)
    (sha1 : List Nat → Str) (sha256 : Str → Str) : Str × Nat :=
  let lines := entries.filterMap (fun e =>
    if ¬e.isDir then none
    else if ¬e.skillMdExists then none
    else
      some (hashLine (e.name ++ "/SKILL.md".data) e.mtimeNs e.size
        (if e.readable then sha1 e.contentBytes else "err".data)))
  let joined := List.intercalate ['|'] (sortStr lines)
  ("sha256:".data ++ sha256 joined, lines.length)

/-- The reference directory-state hash, written from the specification's
words: for every immediate subdirectory of the skills root containing the
skill-definition file, form the line
`relative_path : mtime_nanoseconds : file_size_bytes : sha1(file_bytes)`
(with an error marker in place of the sha1 for an unreadable definition
file), sort all lines lexicographically, join them with `"|"`, and return
the SHA-256 of the joined string tagged with its algorithm. -/
def hashSkillsDirSpec (entries : List CatalogEntry)
    (sha1 : List Nat → Str) (sha256 : Str → Str) : Str :=
  let withSkill := entries.filter (fun e => e.isDir && e.skillMdExists)
  let lines := withSkill.map (fun e =>
    hashLine (e.name ++ "/SKILL.md".data) e.mtimeNs e.size
      (if e.readable then sha1 e.contentBytes else "err".data))
  "sha256:".data ++ sha256 (List.intercalate ['|'] (sortStr lines))

-- ---------------------------------------------------------------------------
-- Statement helpers
-- ---------------------------------------------------------------------------

/-- The per-skill result `add_local` records for a fresh (non-existing,
non-duplicate) skill: failure after rollback when its copy failed,
success otherwise. -/
def addOutcomeR (mkId : SkillSpecA → String) (sk : SkillSpecA) : AddR :=
  if sk.copyFails then ⟨false, mkId sk, "Failed to add '" ++ mkId sk ++ "'"⟩
  else ⟨true, mkId sk, "Added '" ++ mkId sk ++ "'"⟩

/-- A skill id has an origin record in the origin map. -/
def hasKey (id : String) (m : List (String × OriginRec)) : Prop :=
  ∃ r, (id, r) ∈ m

/-- An entry written to disk by extraction is clean: none of its path
components is hidden or excluded, and it was not produced by a symlink or
hard-link member. -/
def cleanEntry (e : Str × TarMemberType) : Prop :=
  (pathParts e.1).any isHiddenOrExcluded = false ∧
  e.2 ≠ TarMemberType.symlink ∧ e.2 ≠ TarMemberType.hardlink

-- ---------------------------------------------------------------------------
-- Theorems
-- ---------------------------------------------------------------------------

/-- Claim C8: for every GitHub URL whose subpath contains a path segment
equal to `..`, parsing raises an error (fails closed) before any network
call is made, including before the default-branch metadata lookup
performed when no ref is given: the result is the traversal error and the
network-lookup flag is false, whatever `resolve_default_branch` is. -/
theorem github_url_traversal_rejected_before_network
    (url : Str) (rdb : Bool) (db : Str)
    (o r : Str) (rf : Option Str) (p : Str)
    (hm : matchGithubURL url = some (o, r, rf, p))
    (hp : "..".data ∈ splitSep '/' p) :
    parse_github_url url rdb db =
      (Except.error "Path traversal detected in URL".data, false) := by
  unfold parse_github_url
  rw [hm]
  simp [hp]

/-- Witness for C8 at the concrete URL
`https://github.com/own/rep/tree/main/../x`. -/
theorem github_url_traversal_rejected_before_network_witness :
    parse_github_url "https://github.com/own/rep/tree/main/../x".data true
        "develop".data =
      (Except.error "Path traversal detected in URL".data, false) :=
  github_url_traversal_rejected_before_network
    "https://github.com/own/rep/tree/main/../x".data true "develop".data
    "own".data "rep".data (some "main".data) "/../x".data
    (by decide) (by decide)

/-- Helper: a `filterMap` whose function is a guarded `some` is a `filter`
followed by a `map`. -/
theorem filterMap_guard_eq {α β : Type} (f : α → Option β) (p : α → Bool)
    (g : α → β) (h : ∀ x, f x = if p x then some (g x) else none) :
    ∀ l : List α, l.filterMap f = (l.filter p).map g := by
  intro l
  induction l with
  | nil => rfl
  | cons x xs ih =>
    rw [List.filterMap_cons, List.filter_cons, h x]
    cases hp : p x <;> simp [ih]

/-- Claim C9: the directory-state hash over a skills root equals the
reference definition written from the specification: one line
`relative_path : mtime_ns : size : sha1(bytes)` per immediate
subdirectory containing the skill-definition file (an unreadable file
contributing the error marker instead of its sha1), sorted
lexicographically, joined with a bar and hashed with tagged SHA-256. -/
theorem hash_skills_dir_matches_reference (entries : List CatalogEntry)
    (sha1 : List Nat → Str) (sha256 : Str → Str) :
    (hash_skills_dir entries sha1 sha256).1 =
      hashSkillsDirSpec entries sha1 sha256 := by
  have hlines := filterMap_guard_eq
    (fun e : CatalogEntry =>
      if ¬e.isDir then none
      else if ¬e.skillMdExists then none
      else
        some (hashLine (e.name ++ "/SKILL.md".data) e.mtimeNs e.size
          (if e.readable then sha1 e.contentBytes else "err".data)))
    (fun e => e.isDir && e.skillMdExists)
    (fun e => hashLine (e.name ++ "/SKILL.md".data) e.mtimeNs e.size
      (if e.readable then sha1 e.contentBytes else "err".data))
    (by
      intro x
      by_cases h1 : x.isDir = true <;> by_cases h2 : x.skillMdExists = true <;>
        simp [h1, h2])
    entries
  simp only [hash_skills_dir, hashSkillsDirSpec, hlines]

/-- Counterexample to claim C2: a fetch-and-extract run that raises on a
symlink member leaves the freshly created temporary extraction directory
behind — it is neither removed by `extract_tarball` / `fetch_github_source`
themselves nor by the caller `add_skill`, whose `finally` block never sees
the directory because the exception propagates before `temp_dir` is
assigned. -/
theorem extract_tempdir_not_removed_on_symlink_error :
    (fetch_github_source
      [⟨"repo0/SKILL.md".data, TarMemberType.file, 10, true, 10⟩,
       ⟨"repo0/evil".data, TarMemberType.symlink, 0, true, 0⟩] []).err ≠ none ∧
    (fetch_github_source
      [⟨"repo0/SKILL.md".data, TarMemberType.file, 10, true, 10⟩,
       ⟨"repo0/evil".data, TarMemberType.symlink, 0, true, 0⟩] []).tempDirCreated = true ∧
    tempDirRemovedAfterAddSkill (fetch_github_source
      [⟨"repo0/SKILL.md".data, TarMemberType.file, 10, true, 10⟩,
       ⟨"repo0/evil".data, TarMemberType.symlink, 0, true, 0⟩] []) = false := by
  decide

/-- Claim C2 as amended: `extract_tarball` itself removes the extraction
directory on no path at all; after `fetch_github_source`, only the
downloaded tar file is guaranteed removed; the extraction directory is
removed by the caller `add_skill` exactly on the success path, and is
leaked on every failing or raising path. -/
theorem extract_tempdir_lifecycle (members : List TarMember) (np : Str) :
    (extract_tarball members np).destRootRemoved = false ∧
    (fetch_github_source members np).tarFileRemoved = true ∧
    (fetch_github_source members np).tempDirRemoved = false ∧
    tempDirRemovedAfterAddSkill (fetch_github_source members np) =
      ((fetch_github_source members np).err).isNone := by
  unfold fetch_github_source tempDirRemovedAfterAddSkill
  cases h : tarballRoots members with
  | nil => simp [extract_tarball, h]
  | cons r rs =>
    simp only [extract_tarball, h]
    cases he : (extractLoop ⟨0, []⟩
        (membersForPref (targetPref (minStr r rs) np) members)).2 <;>
      simp [he]

/-- Helper: when one loop iteration of `extract_tarball` succeeds, every
written entry either was already present or records a member that passed
the hidden/excluded filter and is a directory or a regular file. -/
theorem extractStep_ok_written (st : ExtractState) (m : TarMember)
    (st' : ExtractState) (h : extractStep st m = Except.ok st') :
    ∀ e, e ∈ st'.written → e ∈ st.written ∨
      ((pathParts e.1).any isHiddenOrExcluded = false ∧
       (e.2 = TarMemberType.dir ∨ e.2 = TarMemberType.file)) := by
  intro e he
  unfold extractStep at h
  by_cases h1 : m.name.isEmpty = true
  · rw [if_pos h1] at h
    injection h with h; subst h; exact Or.inl he
  · rw [if_neg h1] at h
    by_cases h2 : (pathParts m.name).any isHiddenOrExcluded = true
    · rw [if_pos h2] at h
      injection h with h; subst h; exact Or.inl he
    · rw [if_neg h2] at h
      by_cases h3 : isLinkMember m = true
      · rw [if_pos h3] at h; cases h
      · rw [if_neg h3] at h
        by_cases h4 : m.typ = TarMemberType.dir
        · rw [if_pos h4] at h
          injection h with h; subst h
          have he' : e ∈ st.written ++ [(m.name, TarMemberType.dir)] := he
          rcases List.mem_append.mp he' with h' | h'
          · exact Or.inl h'
          · rcases List.mem_singleton.mp h' with rfl
            exact Or.inr ⟨by simpa using h2, Or.inl rfl⟩
        · rw [if_neg h4] at h
          by_cases h5 : m.size > MAX_FILE_BYTES
          · rw [if_pos h5] at h; cases h
          · rw [if_neg h5] at h
            by_cases h6 : (!m.extractOk) = true
            · rw [if_pos h6] at h
              injection h with h; subst h; exact Or.inl he
            · rw [if_neg h6] at h
              by_cases h7 : st.totalBytes + m.dataLen > MAX_EXTRACTED_BYTES
              · rw [if_pos h7] at h; cases h
              · rw [if_neg h7] at h
                injection h with h; subst h
                have he' : e ∈ st.written ++ [(m.name, TarMemberType.file)] := he
                rcases List.mem_append.mp he' with h' | h'
                · exact Or.inl h'
                · rcases List.mem_singleton.mp h' with rfl
                  exact Or.inr ⟨by simpa using h2, Or.inr rfl⟩

/-- Helper: the member loop only ever writes clean entries. -/
theorem extractLoop_written_clean :
    ∀ (ms : List TarMember) (st : ExtractState),
      (∀ e ∈ st.written, cleanEntry e) →
      ∀ e ∈ (extractLoop st ms).1.written, cleanEntry e := by
  intro ms
  induction ms with
  | nil => intro st hst e he; exact hst e he
  | cons m0 rest ih =>
    intro st hst e he
    cases hstep : extractStep st m0 with
    | ok st' =>
      simp only [extractLoop, hstep] at he
      refine ih st' ?_ e he
      intro e' he'
      rcases extractStep_ok_written st m0 st' hstep e' he' with h' | h'
      · exact hst e' h'
      · refine ⟨h'.1, ?_, ?_⟩ <;> rcases h'.2 with h2 | h2 <;> simp [h2]
    | error msg =>
      simp only [extractLoop, hstep] at he
      exact hst e he

/-- Helper: everything `extract_tarball` writes below the extraction root
is clean: no hidden or excluded component, and never from a symlink or
hard-link member. -/
theorem extract_tarball_written_clean (members : List TarMember) (np : Str) :
    ∀ e ∈ (extract_tarball members np).state.written, cleanEntry e := by
  intro e he
  cases hr : tarballRoots members with
  | nil => simp [extract_tarball, hr] at he
  | cons r rs =>
    simp only [extract_tarball, hr] at he
    exact extractLoop_written_clean _ ⟨0, []⟩ (by intro e' he'; cases he') e he

/-- Helper: the member loop fails whenever the remaining members contain a
symlink or hard-link member with a nonempty, clean (not hidden or
excluded) stripped name. -/
theorem extractLoop_link_fails :
    ∀ (ms : List TarMember) (st : ExtractState) (m : TarMember),
      m ∈ ms → m.name ≠ [] →
      (pathParts m.name).any isHiddenOrExcluded = false →
      isLinkMember m = true →
      (extractLoop st ms).2 ≠ none := by
  intro ms
  induction ms with
  | nil => intro st m hm; cases hm
  | cons m0 rest ih =>
    intro st m hm hname hclean hlink
    cases hstep : extractStep st m0 with
    | error msg => simp [extractLoop, hstep]
    | ok st' =>
      simp only [extractLoop, hstep]
      rcases List.mem_cons.mp hm with rfl | hm'
      · exfalso
        have herr : extractStep st m =
            Except.error ("Symlinks are not allowed in GitHub source: ".data ++ m.name) := by
          unfold extractStep
          rw [if_neg (by simp [List.isEmpty_iff, hname]),
              if_neg (by simp [hclean]), if_pos hlink]
        rw [herr] at hstep
        cases hstep
      · exact ih st' m hm' hname hclean hlink

/-- Claim C3 as amended: for every tarball member under the target prefix
whose stripped name is nonempty and free of hidden or excluded components
and whose type is symlink or hard link, extraction raises an error and
the whole extraction fails, and no file is ever written to disk for a
link member (a link member whose path contains a hidden or excluded
component is instead silently skipped by the earlier filter, see the
counterexample). -/
theorem link_member_under_target_fails (members : List TarMember) (np : Str)
    (r : Str) (rs : List Str) (hr : tarballRoots members = r :: rs)
    (m : TarMember)
    (hm : m ∈ membersForPref (targetPref (minStr r rs) np) members)
    (hname : m.name ≠ [])
    (hclean : (pathParts m.name).any isHiddenOrExcluded = false)
    (hlink : isLinkMember m = true) :
    (extract_tarball members np).err ≠ none ∧
    ∀ e ∈ (extract_tarball members np).state.written,
      e.2 ≠ TarMemberType.symlink ∧ e.2 ≠ TarMemberType.hardlink := by
  constructor
  · simp only [extract_tarball, hr]
    exact extractLoop_link_fails _ ⟨0, []⟩ m hm hname hclean hlink
  · intro e he
    exact (extract_tarball_written_clean members np e he).2

/-- Witness for the amended C3 at a concrete tarball holding a single
symlink member under the target prefix. -/
theorem link_member_under_target_fails_witness :
    (extract_tarball [⟨"repo0/evil".data, TarMemberType.symlink, 0, true, 0⟩]
        []).err ≠ none ∧
    ∀ e ∈ (extract_tarball
        [⟨"repo0/evil".data, TarMemberType.symlink, 0, true, 0⟩] []).state.written,
      e.2 ≠ TarMemberType.symlink ∧ e.2 ≠ TarMemberType.hardlink :=
  link_member_under_target_fails
    [⟨"repo0/evil".data, TarMemberType.symlink, 0, true, 0⟩] []
    "repo0".data [] (by decide)
    ⟨"evil".data, TarMemberType.symlink, 0, true, 0⟩
    (by decide) (by decide) (by decide) (by decide)

/-- Counterexample to claim C3 as stated: a symlink member under the
target prefix whose path contains a dot-prefixed component does not make
extraction fail — the hidden/excluded skip runs first and the member is
silently dropped, so the extraction completes without error. -/
theorem hidden_symlink_member_does_not_fail_extraction :
    (extract_tarball
      [⟨"repo0/.hidden/link".data, TarMemberType.symlink, 0, true, 0⟩] []).err
      = none ∧
    leadsWith "repo0/".data "repo0/.hidden/link".data = true ∧
    isLinkMember ⟨"repo0/.hidden/link".data, TarMemberType.symlink, 0, true, 0⟩
      = true := by
  decide

/-- Claim C10: during extraction the hidden/excluded-component skip is
applied before the symlink/hard-link rejection — a member with a hidden
or excluded path component is silently skipped whatever its type, never
raising — and consequently every member actually written to disk has no
hidden or excluded path component and is not a link. -/
theorem hidden_skip_precedes_link_rejection :
    (∀ (st : ExtractState) (m : TarMember),
      (pathParts m.name).any isHiddenOrExcluded = true →
      extractStep st m = Except.ok st) ∧
    (∀ (members : List TarMember) (np : Str),
      ∀ e ∈ (extract_tarball members np).state.written, cleanEntry e) := by
  constructor
  · intro st m hm
    unfold extractStep
    by_cases hn : m.name.isEmpty = true
    · rw [if_pos hn]
    · rw [if_neg hn, if_pos hm]
  · exact extract_tarball_written_clean

/-- Witness for C10: a hidden symlink member is skipped without effect,
and a clean written entry of a concrete extraction is clean. -/
theorem hidden_skip_precedes_link_rejection_witness :
    extractStep ⟨0, []⟩ ⟨".git/x".data, TarMemberType.symlink, 0, true, 0⟩ =
      Except.ok ⟨0, []⟩ ∧
    cleanEntry ("a.md".data, TarMemberType.file) :=
  ⟨hidden_skip_precedes_link_rejection.1 ⟨0, []⟩
      ⟨".git/x".data, TarMemberType.symlink, 0, true, 0⟩ (by decide),
   hidden_skip_precedes_link_rejection.2
      [⟨"repo0/a.md".data, TarMemberType.file, 5, true, 5⟩] []
      ("a.md".data, TarMemberType.file) (by decide)⟩

/-- Counterexample to claim C4 as stated: in a batch of two skills whose
computed ids are equal, the first skill's destination directory is
written before the duplicate is detected.  The batch does abort with the
duplicate error, but a destination directory for the preceding skill of
the batch has been created and remains. -/
theorem duplicate_batch_writes_preceding_destination :
    add_local [⟨"a", false, false⟩, ⟨"a", false, false⟩] [] false false
        "ns" none =
      (["a"], Except.error "Duplicate skill id detected: a") ∧
    "a" ∈ (add_local [⟨"a", false, false⟩, ⟨"a", false, false⟩] [] false false
        "ns" none).1 := by
  decide

/-- Claim C4 as amended: a duplicated id within one batch is detected when
the duplicate skill's turn comes in iteration order, and the whole batch
aborts with an exception at that point; but skills earlier in iteration
order have already been copied and their destination directories remain.
Stated for the batch `[s, s]`: the first occurrence is installed, the
second aborts. -/
theorem duplicate_id_aborts_when_reached (s : SkillSpecA)
    (fs0 : List String) (force keep : Bool) (ns : String)
    (rename : Option String)
    (hval : s.validationFatal = false) (hcopy : s.copyFails = false)
    (hfresh : mkSkillId 2 rename keep ns s ∉ fs0) :
    add_local [s, s] fs0 force keep ns rename =
      (fs0 ++ [mkSkillId 2 rename keep ns s],
       Except.error ("Duplicate skill id detected: " ++
         mkSkillId 2 rename keep ns s)) := by
  unfold add_local
  rw [if_neg (by simp [hval])]
  show addLocalGo force (mkSkillId 2 rename keep ns) [] fs0 [s, s] = _
  simp [addLocalGo, hcopy, hfresh, Except.map]

/-- Witness for the amended C4 at a concrete two-skill batch. -/
theorem duplicate_id_aborts_when_reached_witness :
    add_local [⟨"a", false, false⟩, ⟨"a", false, false⟩] ["other"] true true
        "ns" none =
      (["other"] ++ [mkSkillId 2 none true "ns" ⟨"a", false, false⟩],
       Except.error ("Duplicate skill id detected: " ++
         mkSkillId 2 none true "ns" ⟨"a", false, false⟩)) :=
  duplicate_id_aborts_when_reached ⟨"a", false, false⟩ ["other"] true true
    "ns" none rfl rfl (by decide)

/-- Helper: on a batch of validated skills whose computed ids are pairwise
distinct and absent from both the seen set and the filesystem, the add
loop installs exactly the skills whose copy succeeds and records a
rollback failure for each skill whose copy fails, in order. -/
theorem addLocalGo_fresh (force : Bool) (mkId : SkillSpecA → String) :
    ∀ (skills : List SkillSpecA) (seen fs : List String),
      (skills.map mkId).Nodup →
      (∀ sk ∈ skills, mkId sk ∉ seen) →
      (∀ sk ∈ skills, mkId sk ∉ fs) →
      addLocalGo force mkId seen fs skills =
        (fs ++ (skills.filter (fun sk => !sk.copyFails)).map mkId,
         Except.ok (skills.map (addOutcomeR mkId))) := by
  intro skills
  induction skills with
  | nil => intro seen fs _ _ _; simp [addLocalGo]
  | cons sk rest ih =>
    intro seen fs hnodup hseen hfs
    have hid_seen : mkId sk ∉ seen := hseen sk (List.mem_cons_self _ _)
    have hid_fs : mkId sk ∉ fs := hfs sk (List.mem_cons_self _ _)
    rw [List.map_cons] at hnodup
    have hnd := List.nodup_cons.mp hnodup
    have hhead : mkId sk ∉ rest.map mkId := hnd.1
    have hnodup' : (rest.map mkId).Nodup := hnd.2
    have hseen' : ∀ s' ∈ rest, mkId s' ∉ seen ++ [mkId sk] := by
      intro s' hs'
      simp only [List.mem_append, List.mem_singleton]
      rintro (h | h)
      · exact hseen s' (List.mem_cons_of_mem _ hs') h
      · exact hhead (h ▸ List.mem_map_of_mem mkId hs')
    by_cases hc : sk.copyFails = true
    · have hrec := ih (seen ++ [mkId sk]) fs hnodup' hseen'
        (fun s' hs' => hfs s' (List.mem_cons_of_mem _ hs'))
      simp [addLocalGo, hid_seen, hid_fs, hc, hrec, addOutcomeR, Except.map]
    · have hfs' : ∀ s' ∈ rest, mkId s' ∉ fs ++ [mkId sk] := by
        intro s' hs'
        simp only [List.mem_append, List.mem_singleton]
        rintro (h | h)
        · exact hfs s' (List.mem_cons_of_mem _ hs') h
        · exact hhead (h ▸ List.mem_map_of_mem mkId hs')
      have hrec := ih (seen ++ [mkId sk]) (fs ++ [mkId sk]) hnodup' hseen' hfs'
      simp [addLocalGo, hid_seen, hid_fs, hc, hrec, addOutcomeR, Except.map]

/-- Claim C6: in a multi-skill add batch where the copy of one skill fails
partway, that skill's partially written destination directory is deleted
before its failure is recorded (its id is absent from the final
filesystem and its per-skill result is a failure), while every sibling
skill whose copy succeeded remains installed — per-skill atomicity, not
batch atomicity. -/
theorem add_local_per_skill_atomicity (skills : List SkillSpecA)
    (fs0 : List String) (force keep : Bool) (ns : String)
    (rename : Option String)
    (hval : ∀ sk ∈ skills, sk.validationFatal = false)
    (hnodup : (skills.map (mkSkillId skills.length rename keep ns)).Nodup)
    (hfresh : ∀ sk ∈ skills, mkSkillId skills.length rename keep ns sk ∉ fs0) :
    add_local skills fs0 force keep ns rename =
      (fs0 ++ (skills.filter (fun sk => !sk.copyFails)).map
          (mkSkillId skills.length rename keep ns),
       Except.ok (skills.map (addOutcomeR (mkSkillId skills.length rename keep ns)))) ∧
    ∀ sk ∈ skills, sk.copyFails = true →
      mkSkillId skills.length rename keep ns sk ∉
        (add_local skills fs0 force keep ns rename).1 := by
  have hany : skills.any (fun sk => sk.validationFatal) = false := by
    rw [List.any_eq_false]
    intro sk hsk
    simp [hval sk hsk]
  have hmain : add_local skills fs0 force keep ns rename =
      (fs0 ++ (skills.filter (fun sk => !sk.copyFails)).map
          (mkSkillId skills.length rename keep ns),
       Except.ok (skills.map (addOutcomeR (mkSkillId skills.length rename keep ns)))) := by
    unfold add_local
    rw [if_neg (by simp [hany])]
    exact addLocalGo_fresh force _ skills [] fs0 hnodup
      (fun sk _ => List.not_mem_nil _) hfresh
  refine ⟨hmain, ?_⟩
  intro sk hsk hc
  rw [hmain]
  intro hmem
  rcases List.mem_append.mp hmem with h | h
  · exact hfresh sk hsk h
  · rcases List.mem_map.mp h with ⟨sk', hsk', heq⟩
    have hsk'mem : sk' ∈ skills := List.mem_of_mem_filter hsk'
    have hsk'eq : sk' = sk :=
      List.inj_on_of_nodup_map hnodup hsk'mem hsk heq
    have hkeep := List.of_mem_filter hsk'
    rw [hsk'eq] at hkeep
    simp [hc] at hkeep

/-- Witness for C6 at a concrete three-skill batch whose middle skill's
copy fails. -/
theorem add_local_per_skill_atomicity_witness :
    add_local [⟨"a", false, false⟩, ⟨"b", false, true⟩, ⟨"c", false, false⟩]
        [] false false "ns" none =
      ([] ++ (([⟨"a", false, false⟩, ⟨"b", false, true⟩,
            ⟨"c", false, false⟩] : List SkillSpecA).filter
          (fun sk => !sk.copyFails)).map
          (mkSkillId 3 none false "ns"),
       Except.ok (([⟨"a", false, false⟩, ⟨"b", false, true⟩,
            ⟨"c", false, false⟩] : List SkillSpecA).map
          (addOutcomeR (mkSkillId 3 none false "ns")))) ∧
    ∀ sk ∈ ([⟨"a", false, false⟩, ⟨"b", false, true⟩,
        ⟨"c", false, false⟩] : List SkillSpecA),
      sk.copyFails = true →
      mkSkillId 3 none false "ns" sk ∉
        (add_local [⟨"a", false, false⟩, ⟨"b", false, true⟩,
            ⟨"c", false, false⟩] [] false false "ns" none).1 :=
  add_local_per_skill_atomicity
    [⟨"a", false, false⟩, ⟨"b", false, true⟩, ⟨"c", false, false⟩]
    [] false false "ns" none (by decide) (by decide) (by decide)

/-- Counterexample to claim C5 as stated: when the origin record's stored
content hash is absent (empty), it differs from the installed hash, yet
with the source hash differing and no force the update is not refused —
it proceeds, reports no local modification, and replaces the installed
skill.  The code treats an empty stored hash as "cannot detect local
modifications", not as a modification. -/
theorem empty_stored_hash_update_proceeds :
    update_from_local
        ⟨true, true, true, "sha256:new", none, "sha256:inst", none, true, true⟩
        "s" false false ⟨some "sha256:inst", ""⟩ =
      (⟨true, "Updated from local source", false, ["s"], []⟩,
       ⟨some "sha256:new", "sha256:new"⟩) ∧
    ("" : String) ≠ "sha256:inst" ∧
    (some "sha256:new" : Option String) ≠ some "sha256:inst" := by
  decide

/-- Claim C5 as amended: for an update whose source (or remote) hash
differs from the installed hash, whenever the stored baseline hash is
non-empty and differs from the installed hash and force is not set, the
update is refused with a "local modifications detected" message carrying
the machine-checkable `local_modified` flag, and neither the installed
skill nor the stored baseline is touched; an absent or empty stored hash
instead lets the update proceed (see the counterexample). -/
theorem local_modifications_refused
    (envL : LocalUpdateEnv) (envG : GithubUpdateEnv) (skillId : String)
    (dryRun : Bool) (st : UpdState)
    (hse : envL.sourceExists = true) (hsd : envL.sourceIsDir = true)
    (hsf : envL.skillFound = true) (hsr : envL.sourceReason = none)
    (hir : envL.installedReason = none)
    (hneq : envL.sourceHash ≠ envL.installedHash)
    (hurl : envG.sourceUrl ≠ "") (hgr : envG.remoteReason = none)
    (hgi : envG.installedReason = none)
    (hgneq : envG.remoteHash ≠ envG.installedHash)
    (hstored : st.originHash ≠ "")
    (hdiffL : st.originHash ≠ envL.installedHash)
    (hdiffG : st.originHash ≠ envG.installedHash) :
    update_from_local envL skillId false dryRun st =
      (⟨false, "Local modifications detected. Use --force to overwrite",
        true, [], []⟩, st) ∧
    update_from_github envG skillId false dryRun st =
      (⟨false, "Local modifications detected. Use --force to overwrite",
        true, [], []⟩, st) := by
  constructor
  · simp [update_from_local, hse, hsd, hsf, hsr, hir, hneq, hstored, hdiffL]
  · simp [update_from_github, hurl, hgr, hgi, hgneq, hstored, hdiffG]

/-- Witness for the amended C5 at concrete environments with a drifted
non-empty stored baseline. -/
theorem local_modifications_refused_witness :
    update_from_local
        ⟨true, true, true, "sha256:new", none, "sha256:inst", none, true, true⟩
        "s" false false ⟨some "sha256:inst", "sha256:base"⟩ =
      (⟨false, "Local modifications detected. Use --force to overwrite",
        true, [], []⟩, ⟨some "sha256:inst", "sha256:base"⟩) ∧
    update_from_github
        ⟨"https://github.com/o/r", "tree:new", none, "tree:inst", none,
         true, true, true, "sha256:fetched"⟩
        "s" false false ⟨some "sha256:inst", "sha256:base"⟩ =
      (⟨false, "Local modifications detected. Use --force to overwrite",
        true, [], []⟩, ⟨some "sha256:inst", "sha256:base"⟩) :=
  local_modifications_refused
    ⟨true, true, true, "sha256:new", none, "sha256:inst", none, true, true⟩
    ⟨"https://github.com/o/r", "tree:new", none, "tree:inst", none,
     true, true, true, "sha256:fetched"⟩
    "s" false ⟨some "sha256:inst", "sha256:base"⟩
    rfl rfl rfl rfl rfl (by decide) (by decide) rfl rfl (by decide)
    (by decide) (by decide) (by decide)

/-- Claim C7: when the computed source (or remote) hash equals the
installed content hash, update reports "already up to date", performs no
mutation of the installed skill, and leaves the stored baseline equal to
the installed hash — silently resyncing it when it had drifted instead of
treating the drift as a local modification. -/
theorem up_to_date_resyncs_baseline
    (envL : LocalUpdateEnv) (envG : GithubUpdateEnv) (skillId : String)
    (force dryRun : Bool) (st : UpdState)
    (hse : envL.sourceExists = true) (hsd : envL.sourceIsDir = true)
    (hsf : envL.skillFound = true) (hsr : envL.sourceReason = none)
    (hir : envL.installedReason = none)
    (heqL : envL.sourceHash = envL.installedHash)
    (hurl : envG.sourceUrl ≠ "") (hgr : envG.remoteReason = none)
    (hgi : envG.installedReason = none)
    (heqG : envG.remoteHash = envG.installedHash) :
    update_from_local envL skillId force dryRun st =
      (⟨true, "Already up to date", false, [], [skillId]⟩,
       ⟨st.installed, envL.installedHash⟩) ∧
    update_from_github envG skillId force dryRun st =
      (⟨true, "Already up to date", false, [], [skillId]⟩,
       ⟨st.installed, envG.installedHash⟩) := by
  have hstL : (if st.originHash ≠ envL.installedHash then
      { st with originHash := envL.installedHash } else st) =
      (⟨st.installed, envL.installedHash⟩ : UpdState) := by
    by_cases hb : st.originHash = envL.installedHash
    · rw [if_neg (fun hC => hC hb), ← hb]
    · rw [if_pos hb]
  have hstG : (if st.originHash ≠ envG.installedHash then
      { st with originHash := envG.installedHash } else st) =
      (⟨st.installed, envG.installedHash⟩ : UpdState) := by
    by_cases hb : st.originHash = envG.installedHash
    · rw [if_neg (fun hC => hC hb), ← hb]
    · rw [if_pos hb]
  constructor
  · simp only [update_from_local, hse, hsd, hsf, hsr, hir]
    rw [if_neg (by simp), if_neg (by simp), if_neg (by simp), if_pos heqL, hstL]
  · simp only [update_from_github, hgr, hgi]
    rw [if_neg hurl, if_pos heqG, hstG]

/-- Witness for C7 at concrete environments with a drifted stored
baseline. -/
theorem up_to_date_resyncs_baseline_witness :
    update_from_local
        ⟨true, true, true, "sha256:h", none, "sha256:h", none, true, true⟩
        "s" false false ⟨some "sha256:h", "sha1:old"⟩ =
      (⟨true, "Already up to date", false, [], ["s"]⟩,
       ⟨some "sha256:h", "sha256:h"⟩) ∧
    update_from_github
        ⟨"https://github.com/o/r", "tree:t", none, "tree:t", none,
         true, true, true, "sha256:f"⟩
        "s" false false ⟨some "sha256:h", "sha1:old"⟩ =
      (⟨true, "Already up to date", false, [], ["s"]⟩,
       ⟨some "sha256:h", "tree:t"⟩) :=
  up_to_date_resyncs_baseline
    ⟨true, true, true, "sha256:h", none, "sha256:h", none, true, true⟩
    ⟨"https://github.com/o/r", "tree:t", none, "tree:t", none,
     true, true, true, "sha256:f"⟩
    "s" false false ⟨some "sha256:h", "sha1:old"⟩
    rfl rfl rfl rfl rfl rfl (by decide) rfl rfl rfl

/-- Helper: membership after a directory removal. -/
theorem mem_removeId (id x : String) : ∀ l : List String,
    (x ∈ removeId id l ↔ x ∈ l ∧ x ≠ id) := by
  intro l
  induction l with
  | nil => simp [removeId]
  | cons y ys ih =>
    by_cases h : y = id
    · subst h
      simp only [removeId, if_pos rfl, ih, List.mem_cons]
      tauto
    · simp only [removeId, if_neg h, ih, List.mem_cons]
      constructor
      · rintro (rfl | ⟨hy, hne⟩)
        · exact ⟨Or.inl rfl, h⟩
        · exact ⟨Or.inr hy, hne⟩
      · rintro ⟨rfl | hy, hne⟩
        · exact Or.inl rfl
        · exact Or.inr ⟨hy, hne⟩

/-- Helper: branch equation of the add loop — duplicate id. -/
theorem addLocalGo_cons_dup (force : Bool) (mkId : SkillSpecA → String)
    (seen fs : List String) (sk : SkillSpecA) (rest : List SkillSpecA)
    (h1 : mkId sk ∈ seen) :
    addLocalGo force mkId seen fs (sk :: rest) =
      (fs, Except.error ("Duplicate skill id detected: " ++ mkId sk)) := by
  simp [addLocalGo, h1]

/-- Helper: branch equation of the add loop — existing id without force,
skill skipped. -/
theorem addLocalGo_cons_skip (force : Bool) (mkId : SkillSpecA → String)
    (seen fs : List String) (sk : SkillSpecA) (rest : List SkillSpecA)
    (h1 : mkId sk ∉ seen) (hmem : mkId sk ∈ fs) (hforce : force = false) :
    addLocalGo force mkId seen fs (sk :: rest) =
      ((addLocalGo force mkId (seen ++ [mkId sk]) fs rest).1,
       Except.map (fun rs =>
         (⟨false, mkId sk,
           "Skill '" ++ mkId sk ++ "' exists. Use --force to overwrite."⟩ : AddR) :: rs)
         (addLocalGo force mkId (seen ++ [mkId sk]) fs rest).2) := by
  subst hforce
  simp [addLocalGo, h1, hmem]

/-- Helper: branch equation of the add loop — fresh or force-replaced id
whose copy fails and is rolled back. -/
theorem addLocalGo_cons_fail (force : Bool) (mkId : SkillSpecA → String)
    (seen fs : List String) (sk : SkillSpecA) (rest : List SkillSpecA)
    (h1 : mkId sk ∉ seen) (hcond : force = true ∨ mkId sk ∉ fs)
    (h4 : sk.copyFails = true) :
    addLocalGo force mkId seen fs (sk :: rest) =
      ((addLocalGo force mkId (seen ++ [mkId sk])
          (if mkId sk ∈ fs then removeId (mkId sk) fs else fs) rest).1,
       Except.map (fun rs =>
         (⟨false, mkId sk, "Failed to add '" ++ mkId sk ++ "'"⟩ : AddR) :: rs)
         (addLocalGo force mkId (seen ++ [mkId sk])
           (if mkId sk ∈ fs then removeId (mkId sk) fs else fs) rest).2) := by
  rcases hcond with hf | hmem
  · subst hf; simp [addLocalGo, h1, h4]
  · simp [addLocalGo, h1, hmem, h4]

/-- Helper: branch equation of the add loop — fresh or force-replaced id
whose copy succeeds. -/
theorem addLocalGo_cons_ok (force : Bool) (mkId : SkillSpecA → String)
    (seen fs : List String) (sk : SkillSpecA) (rest : List SkillSpecA)
    (h1 : mkId sk ∉ seen) (hcond : force = true ∨ mkId sk ∉ fs)
    (h4 : sk.copyFails = false) :
    addLocalGo force mkId seen fs (sk :: rest) =
      ((addLocalGo force mkId (seen ++ [mkId sk])
          ((if mkId sk ∈ fs then removeId (mkId sk) fs else fs) ++ [mkId sk])
          rest).1,
       Except.map (fun rs =>
         (⟨true, mkId sk, "Added '" ++ mkId sk ++ "'"⟩ : AddR) :: rs)
         (addLocalGo force mkId (seen ++ [mkId sk])
           ((if mkId sk ∈ fs then removeId (mkId sk) fs else fs) ++ [mkId sk])
           rest).2) := by
  rcases hcond with hf | hmem
  · subst hf; simp [addLocalGo, h1, h4]
  · simp [addLocalGo, h1, hmem, h4]

/-- Helper: an id recorded as seen and present in the filesystem is never
removed by the remaining iterations of the add loop (the duplicate check
prevents any later skill from reusing it). -/
theorem addLocalGo_seen_persist (force : Bool) (mkId : SkillSpecA → String) :
    ∀ (skills : List SkillSpecA) (seen fs : List String) (x : String),
      x ∈ fs → x ∈ seen →
      x ∈ (addLocalGo force mkId seen fs skills).1 := by
  intro skills
  induction skills with
  | nil => intro seen fs x hx _; simpa [addLocalGo] using hx
  | cons sk rest ih =>
    intro seen fs x hx hseenx
    by_cases h1 : mkId sk ∈ seen
    · rw [addLocalGo_cons_dup force mkId seen fs sk rest h1]
      exact hx
    · by_cases hskip : mkId sk ∈ fs ∧ force = false
      · rw [addLocalGo_cons_skip force mkId seen fs sk rest h1 hskip.1 hskip.2]
        exact ih _ _ x hx (List.mem_append_left _ hseenx)
      · have hcond : force = true ∨ mkId sk ∉ fs := by
          rcases Bool.eq_false_or_eq_true force with hf | hf
          · left; exact hf
          · right; intro hm; exact hskip ⟨hm, hf⟩
        have hxfs1 : x ∈ (if mkId sk ∈ fs then removeId (mkId sk) fs else fs) := by
          by_cases h3 : mkId sk ∈ fs
          · rw [if_pos h3]
            exact (mem_removeId _ _ _).mpr ⟨hx, fun he => h1 (he ▸ hseenx)⟩
          · rw [if_neg h3]; exact hx
        by_cases h4 : sk.copyFails = true
        · rw [addLocalGo_cons_fail force mkId seen fs sk rest h1 hcond h4]
          exact ih _ _ x hxfs1 (List.mem_append_left _ hseenx)
        · rw [addLocalGo_cons_ok force mkId seen fs sk rest h1 hcond
            (by simpa using h4)]
          exact ih _ _ x (List.mem_append_left _ hxfs1)
            (List.mem_append_left _ hseenx)

/-- Helper: every per-skill success reported by the add loop corresponds
to a destination directory present in the final filesystem. -/
theorem addLocalGo_success_installed (force : Bool) (mkId : SkillSpecA → String) :
    ∀ (skills : List SkillSpecA) (seen fs : List String) (results : List AddR),
      (addLocalGo force mkId seen fs skills).2 = Except.ok results →
      ∀ rr ∈ results, rr.success = true →
        rr.skill_id ∈ (addLocalGo force mkId seen fs skills).1 := by
  intro skills
  induction skills with
  | nil =>
    intro seen fs results h rr hrr _
    simp only [addLocalGo] at h
    injection h with h
    subst h
    cases hrr
  | cons sk rest ih =>
    intro seen fs results h rr hrr hsucc
    by_cases h1 : mkId sk ∈ seen
    · rw [addLocalGo_cons_dup force mkId seen fs sk rest h1] at h
      simp at h
    · by_cases hskip : mkId sk ∈ fs ∧ force = false
      · rw [addLocalGo_cons_skip force mkId seen fs sk rest h1 hskip.1 hskip.2]
          at h ⊢
        cases hr2 : (addLocalGo force mkId (seen ++ [mkId sk]) fs rest).2 with
        | error e => rw [hr2] at h; simp [Except.map] at h
        | ok rs =>
          rw [hr2] at h
          simp only [Except.map] at h
          injection h with h
          subst h
          rcases List.mem_cons.mp hrr with rfl | hrr'
          · cases hsucc
          · exact ih _ _ rs hr2 rr hrr' hsucc
      · have hcond : force = true ∨ mkId sk ∉ fs := by
          rcases Bool.eq_false_or_eq_true force with hf | hf
          · left; exact hf
          · right; intro hm; exact hskip ⟨hm, hf⟩
        by_cases h4 : sk.copyFails = true
        · rw [addLocalGo_cons_fail force mkId seen fs sk rest h1 hcond h4]
            at h ⊢
          cases hr2 : (addLocalGo force mkId (seen ++ [mkId sk])
              (if mkId sk ∈ fs then removeId (mkId sk) fs else fs) rest).2 with
          | error e => rw [hr2] at h; simp [Except.map] at h
          | ok rs =>
            rw [hr2] at h
            simp only [Except.map] at h
            injection h with h
            subst h
            rcases List.mem_cons.mp hrr with rfl | hrr'
            · cases hsucc
            · exact ih _ _ rs hr2 rr hrr' hsucc
        · rw [addLocalGo_cons_ok force mkId seen fs sk rest h1 hcond
            (by simpa using h4)] at h ⊢
          cases hr2 : (addLocalGo force mkId (seen ++ [mkId sk])
              ((if mkId sk ∈ fs then removeId (mkId sk) fs else fs) ++ [mkId sk])
              rest).2 with
          | error e => rw [hr2] at h; simp [Except.map] at h
          | ok rs =>
            rw [hr2] at h
            simp only [Except.map] at h
            injection h with h
            subst h
            rcases List.mem_cons.mp hrr with rfl | hrr'
            · exact addLocalGo_seen_persist force mkId rest _ _ (mkId sk)
                (List.mem_append_right _ (List.mem_singleton_self _))
                (List.mem_append_right _ (List.mem_singleton_self _))
            · exact ih _ _ rs hr2 rr hrr' hsucc

/-- Helper: after `setOrigin m id r`, the key `id` is present. -/
theorem hasKey_setOrigin_self (m : List (String × OriginRec)) (id : String)
    (r : OriginRec) : hasKey id (setOrigin m id r) := by
  unfold setOrigin hasKey
  by_cases h : m.any (fun p => p.1 = id) = true
  · rw [if_pos h]
    rcases List.any_eq_true.mp h with ⟨p, hp, hpe⟩
    have hpe' : p.1 = id := by simpa using hpe
    refine ⟨r, ?_⟩
    have hm := List.mem_map_of_mem (fun p => if p.1 = id then (id, r) else p) hp
    simpa [hpe'] using hm
  · rw [if_neg h]
    exact ⟨r, List.mem_append_right _ (List.mem_singleton_self _)⟩

/-- Helper: `setOrigin` never deletes a key. -/
theorem hasKey_setOrigin_mono (m : List (String × OriginRec))
    (id id' : String) (r' : OriginRec) (h : hasKey id m) :
    hasKey id (setOrigin m id' r') := by
  by_cases hpe : id = id'
  · subst hpe; exact hasKey_setOrigin_self m id r'
  · rcases h with ⟨r, hr⟩
    unfold setOrigin
    by_cases h : m.any (fun p => p.1 = id') = true
    · rw [if_pos h]
      refine ⟨r, ?_⟩
      have hm := List.mem_map_of_mem (fun p => if p.1 = id' then (id', r') else p) hr
      simpa [hpe] using hm
    · rw [if_neg h]
      exact ⟨r, List.mem_append_left _ hr⟩

/-- Helper: recording origins for a list of added ids (with origin I/O
succeeding) makes every added id present and keeps every present key. -/
theorem hasKey_recordOrigins (payload : OriginRec) :
    ∀ (ids : List String) (m : List (String × OriginRec)) (id : String),
      id ∈ ids ∨ hasKey id m →
      hasKey id (recordOriginsForAdded true payload ids m) := by
  intro ids
  induction ids with
  | nil =>
    rintro m id (h | h)
    · cases h
    · simpa [recordOriginsForAdded] using h
  | cons a as ih =>
    have hstep : ∀ m : List (String × OriginRec),
        recordOriginsForAdded true payload (a :: as) m =
          recordOriginsForAdded true payload as (setOrigin m a payload) := by
      intro m; rfl
    rintro m id (h | h)
    · rcases List.mem_cons.mp h with rfl | h'
      · rw [hstep]
        exact ih _ id (Or.inr (hasKey_setOrigin_self m id payload))
      · rw [hstep]
        exact ih _ id (Or.inl h')
    · rw [hstep]
      exact ih _ id (Or.inr (hasKey_setOrigin_mono m id a payload h))

/-- Helper: after `delOrigin id m`, the key `id` is gone. -/
theorem not_hasKey_delOrigin (id : String) :
    ∀ m : List (String × OriginRec), ¬hasKey id (delOrigin id m) := by
  intro m
  induction m with
  | nil => rintro ⟨r, hr⟩; cases hr
  | cons p ps ih =>
    rintro ⟨r, hr⟩
    unfold delOrigin at hr
    by_cases h : p.1 = id
    · rw [if_pos h] at hr; exact ih ⟨r, hr⟩
    · rw [if_neg h] at hr
      rcases List.mem_cons.mp hr with heq | hr'
      · exact h (heq ▸ rfl)
      · exact ih ⟨r, hr'⟩

/-- Counterexample to claim C1 as stated: when the origin store's write
raises (modelled by `saveOk = false`), `add_skill` still reports success
for the added skill — the installed directory exists but no origin record
does, so the Origin Store and the filesystem catalog disagree after a
successful mutation. -/
theorem swallowed_origin_failure_desyncs_catalog :
    (add_skill_core false ⟨"local", ""⟩ [⟨"s", false, false⟩] false false "ns"
        none ⟨[], []⟩).2 =
      Except.ok ⟨true, ["s"], []⟩ ∧
    "s" ∈ (add_skill_core false ⟨"local", ""⟩ [⟨"s", false, false⟩] false false
        "ns" none ⟨[], []⟩).1.fs ∧
    (add_skill_core false ⟨"local", ""⟩ [⟨"s", false, false⟩] false false "ns"
        none ⟨[], []⟩).1.origins = [] := by
  decide

/-- Claim C1 as amended: whenever the origin store's file write succeeds
(`saveOk = true`), the Origin Store and the filesystem catalog agree
after every mutation that reports success: every id a successful add
reports as added has both its installed directory and an origin record,
and a successful remove of an id leaves neither; the two can disagree
only when an origin-store I/O failure is swallowed (see the
counterexample). -/
theorem add_remove_sync_when_origin_io_succeeds :
    (∀ (payload : OriginRec) (skills : List SkillSpecA) (force keep : Bool)
        (ns : String) (rename : Option String) (cat : Catalog)
        (res : AddResultP),
      (add_skill_core true payload skills force keep ns rename cat).2 =
        Except.ok res →
      ∀ id ∈ res.added,
        id ∈ (add_skill_core true payload skills force keep ns rename cat).1.fs ∧
        hasKey id
          (add_skill_core true payload skills force keep ns rename cat).1.origins) ∧
    (∀ (id : String) (cat : Catalog),
      (remove_skill true id cat).2 = true →
      id ∉ (remove_skill true id cat).1.fs ∧
      ¬hasKey id (remove_skill true id cat).1.origins) := by
  constructor
  · intro payload skills force keep ns rename cat res h id hid
    by_cases hv : skills.any (fun sk => sk.validationFatal) = true
    · exfalso
      simp [add_skill_core, add_local, hv] at h
    · cases hr : (addLocalGo force
          (mkSkillId skills.length rename keep ns) [] cat.fs skills).2 with
      | error e =>
        exfalso
        simp [add_skill_core, add_local, hv, hr] at h
      | ok results =>
        have hrw : (add_skill_core true payload skills force keep ns rename cat) =
            (⟨(addLocalGo force (mkSkillId skills.length rename keep ns)
                [] cat.fs skills).1,
              if ((results.filter (fun rr => rr.success)).map
                  (fun rr => rr.skill_id)).isEmpty then cat.origins
              else recordOriginsForAdded true payload
                ((results.filter (fun rr => rr.success)).map
                  (fun rr => rr.skill_id)) cat.origins⟩,
             Except.ok ⟨((results.filter (fun rr => !rr.success)).map
                  (fun rr => rr.skill_id)).isEmpty,
                (results.filter (fun rr => rr.success)).map
                  (fun rr => rr.skill_id),
                (results.filter (fun rr => !rr.success)).map
                  (fun rr => rr.skill_id)⟩) := by
          simp [add_skill_core, add_local, hv, hr]
        rw [hrw] at h ⊢
        injection h with h
        subst h
        rcases List.mem_map.mp hid with ⟨rr, hrr, hrid⟩
        have hrrmem : rr ∈ results := List.mem_of_mem_filter hrr
        have hrrsucc : rr.success = true := by
          have := List.of_mem_filter hrr
          simpa using this
        constructor
        · subst hrid
          exact addLocalGo_success_installed force _ skills [] cat.fs results
            hr rr hrrmem hrrsucc
        · have hne : ¬(((results.filter (fun rr => rr.success)).map
              (fun rr => rr.skill_id)).isEmpty = true) := by
            simp only [List.isEmpty_iff]
            intro hemp
            rw [hemp] at hid
            cases hid
          rw [if_neg hne]
          exact hasKey_recordOrigins payload _ cat.origins id (Or.inl hid)
  · intro id cat h
    by_cases hmem : id ∈ cat.fs
    · have hrw : remove_skill true id cat =
          (⟨removeId id cat.fs, delOrigin id cat.origins⟩, true) := by
        unfold remove_skill remove_skill_internal
        rw [if_pos hmem]
        rfl
      rw [hrw]
      constructor
      · intro hin
        exact ((mem_removeId id id cat.fs).mp hin).2 rfl
      · exact not_hasKey_delOrigin id cat.origins
    · exfalso
      have hrw : remove_skill true id cat = (⟨cat.fs, cat.origins⟩, false) := by
        unfold remove_skill remove_skill_internal
        rw [if_neg hmem]
        rfl
      rw [hrw] at h
      cases h

/-- Witness for the amended C1: a concrete successful add with working
origin I/O leaves both the directory and the origin record; a concrete
successful remove leaves neither. -/
theorem add_remove_sync_when_origin_io_succeeds_witness :
    ("s" ∈ (add_skill_core true ⟨"local", "h"⟩ [⟨"s", false, false⟩] false
        false "ns" none ⟨[], []⟩).1.fs ∧
     hasKey "s" (add_skill_core true ⟨"local", "h"⟩ [⟨"s", false, false⟩]
        false false "ns" none ⟨[], []⟩).1.origins) ∧
    ("t" ∉ (remove_skill true "t" ⟨["t"], [("t", ⟨"local", "h"⟩)]⟩).1.fs ∧
     ¬hasKey "t" (remove_skill true "t" ⟨["t"], [("t", ⟨"local", "h"⟩)]⟩).1.origins) :=
  ⟨add_remove_sync_when_origin_io_succeeds.1 ⟨"local", "h"⟩
      [⟨"s", false, false⟩] false false "ns" none ⟨[], []⟩
      ⟨true, ["s"], []⟩ (by decide) "s" (by decide),
   add_remove_sync_when_origin_io_succeeds.2 "t"
      ⟨["t"], [("t", ⟨"local", "h"⟩)]⟩ (by decide)⟩
